import Mathlib

/-!
Verification development for the Quantum-Network-Simulator repository
(PQC-secured SCTP tunnel). The definitions below are a shallow embedding of
`src/NetsquidTunnel/netsquid_tunnel_PQC_tunnel.py` (and, for timing, of
`src/SequenceTunnel/sequence_tunnel.py`). Byte strings are `List Nat`;
Python `None` becomes `Option.none`; a caught exception inside a handler is
modelled as the `none`/failure branch of the corresponding step. SHA-256
(`hashlib.sha256(...).digest()`) is an external library primitive, so it is
a parameter `H : Bytes → Bytes` together with the hypothesis that every
digest has exactly 32 bytes, which is the only property of SHA-256 the
tunnel code relies on.
-/

/-- Byte strings (Python `bytes`) as lists of naturals. -/
abbrev Bytes := List Nat

/-- `struct.pack('>Q', 0)` — eight zero bytes, the fixed counter seed used on
every call of `PQCManager.protect_data` (line 87 of the tunnel source). -/
def counter_bytes : Bytes := List.replicate 8 0

/-- The `while len(key_stream) < len(data)` loop of `PQCManager.protect_data`
(lines 90-92): `key_material = sha256(key_stream).digest() + counter_bytes;
key_stream += sha256(key_material).digest()`. The loop is embedded with
explicit fuel; since every SHA-256 digest has 32 bytes, fuel `target`
is always enough (each iteration grows the stream by 32 ≥ 1 bytes), so under
that hypothesis the fuel never runs out and this is the exact loop. -/
def growKeystream (H : Bytes → Bytes) : Nat → Nat → Bytes → Bytes
  | 0, _, ks => ks
  | fuel + 1, target, ks =>
    if ks.length < target then
      growKeystream H fuel target (ks ++ H (H ks ++ counter_bytes))
    else ks

/-- The keystream computed by `PQCManager.protect_data` for a secret `s` and a
payload of length `n`: start from `sha256(shared_secret + counter_bytes)`
(lines 88-89), extend by the loop, truncate to the payload length (line 93).
The keystream depends only on the secret and the payload length. -/
def keystream (H : Bytes → Bytes) (s : Bytes) (n : Nat) : Bytes :=
  (growKeystream H n n (H (s ++ counter_bytes))).take n

/-- `PQCManager.protect_data(data, direction)` (lines 79-102): return `None`
when the shared secret is unset or empty (Python falsy test on line 81),
otherwise XOR the payload byte-wise with the keystream (line 96). The
`direction` argument only affects logging and is omitted. The `try/except`
around the body can only fire on non-byte input and is modelled as absent. -/
def protect_data (H : Bytes → Bytes) (shared_secret : Option Bytes)
    (data : Bytes) : Option Bytes :=
  match shared_secret with
  | none => none
  | some s =>
    if s = [] then none
    else some (List.zipWith Nat.xor data (keystream H s data.length))

/-- SCTP constants from the fallback branch of the source (lines 16-23) and
the F1AP payload-protocol identifier (line 42). -/
def IPPROTO_SCTP : Nat := 132

def SCTP_PPID : Nat := 3

def F1AP_PPID : Nat := 62

/-- `struct.pack('=I', n)` (line 326): a 4-byte unsigned integer in native
byte order with standard size. The deployment hosts of this tunnel are
x86-64 Linux machines, whose native order is little-endian, so the first
wire byte is the least significant one. -/
def packU32 (n : Nat) : Bytes :=
  [n % 256, n / 256 % 256, n / 256 ^ 2 % 256, n / 256 ^ 3 % 256]

/-- `struct.unpack('=I', bs)[0]` on a 4-byte native-order buffer
(lines 270 and 330). -/
def unpackU32 (bs : Bytes) : Nat :=
  match bs with
  | [b0, b1, b2, b3] => b0 + b1 * 256 + b2 * 256 ^ 2 + b3 * 256 ^ 3
  | _ => 0

/-- The big-endian packing the specification's wording describes ("a 4-byte
big-endian unsigned payload-tag"). Stated only to compare against the
source's `packU32`; the source itself uses native (little-endian) order. -/
def packU32be (n : Nat) : Bytes :=
  [n / 256 ^ 3 % 256, n / 256 ^ 2 % 256, n / 256 % 256, n % 256]

/-- The PPID-extraction loop of `_process_socket_data` (lines 266-274):
start from the default `F1AP_PPID` and overwrite it with the unpacked value
of every ancillary-data item whose level/type match SCTP's PPID cmsg. -/
def extractPpid (ancdata : List (Nat × Nat × Bytes)) : Nat :=
  ancdata.foldl
    (fun ppid c =>
      if c.1 = IPPROTO_SCTP ∧ c.2.1 = SCTP_PPID then unpackU32 c.2.2 else ppid)
    F1AP_PPID

/-- The wire unit put on the NetSquid channel for a secured packet
(line 326 / 358): `data_with_ppid = struct.pack('=I', ppid) + encrypted`. -/
def dataWithPpid (ppid : Nat) (encrypted : Bytes) : Bytes :=
  packU32 ppid ++ encrypted

/-- Mutable state of the tunnel relevant to the claims: the readiness flag
`SCTPEventHandler.tunnel_ready` (line 177), the one pending `evtype_init`
event scheduled once in `__init__` (line 187), and the shared secrets of the
two `PQCManager`s held by the `ClassicalConnection`. -/
structure TunnelState where
  tunnel_ready : Bool
  initPending : Bool
  qcu_secret : Option Bytes
  qdu_secret : Option Bytes
  deriving DecidableEq, Repr

/-- Why `_process_socket_data` / `_process_data_through_pqc` discarded a
packet instead of forwarding it. -/
inductive DropReason where
  | connClosed
  | notReady
  | encFail
  | decFail
  | integrity
  deriving DecidableEq, Repr

/-- Either the packet was dropped, or `decrypted` was written to the target
socket via `_send_with_ppid(sock, decrypted, received_ppid)`. -/
inductive Outcome where
  | dropped (r : DropReason)
  | forwarded (data : Bytes) (ppid : Nat)
  deriving DecidableEq, Repr

/-- Observable effects of handling one inbound socket read: the inputs that
were handed to `protect_data` (the KeystreamCipher), the payloads injected
into the NetSquid channel by `tx_output` (the scheduled deliveries), the
blocked-packet warning log `(is_cu_socket, size)` if any, and the outcome. -/
structure PacketTrace where
  cipherInputs : List Bytes
  scheduled : List Bytes
  blockedLog : Option (Bool × Nat)
  result : Outcome
  deriving DecidableEq, Repr

/-- `SCTPEventHandler._process_data_through_pqc` (lines 307-379). Both the
CU→DU branch and its DU→CU mirror are covered via `is_cu`: the encrypting
manager is QCU for CU-sourced data and QDU otherwise, the decrypting manager
is the opposite one. `if not encrypted` / `if not decrypted` are Python falsy
tests, true for both `None` and the empty byte string. The state is returned
unchanged because the data path never writes `tunnel_ready` or a secret. -/
def processDataThroughPqc (H : Bytes → Bytes) (st : TunnelState)
    (orig_data : Bytes) (is_cu : Bool) (ppid : Nat) : PacketTrace :=
  if st.tunnel_ready = false then
    ⟨[], [], none, .dropped .notReady⟩
  else
    let encSecret := if is_cu then st.qcu_secret else st.qdu_secret
    let decSecret := if is_cu then st.qdu_secret else st.qcu_secret
    match protect_data H encSecret orig_data with
    | none => ⟨[orig_data], [], none, .dropped .encFail⟩
    | some encrypted =>
      if encrypted = [] then ⟨[orig_data], [], none, .dropped .encFail⟩
      else
        let wire := dataWithPpid ppid encrypted
        let received_ppid := unpackU32 (wire.take 4)
        match protect_data H decSecret encrypted with
        | none => ⟨[orig_data, encrypted], [wire], none, .dropped .decFail⟩
        | some decrypted =>
          if decrypted = [] then
            ⟨[orig_data, encrypted], [wire], none, .dropped .decFail⟩
          else if decrypted ≠ orig_data then
            ⟨[orig_data, encrypted], [wire], none, .dropped .integrity⟩
          else
            ⟨[orig_data, encrypted], [wire], none,
              .forwarded decrypted received_ppid⟩

/-- `SCTPEventHandler._process_socket_data` (lines 253-305) after the read:
empty data means the peer closed the connection (`_handle_empty_data`);
otherwise the security gate on line 290 either hands the packet to the PQC
pipeline or drops it, logging the source and size (line 293). -/
def processSocketData (H : Bytes → Bytes) (st : TunnelState)
    (orig_data : Bytes) (is_cu : Bool) (ppid : Nat) : PacketTrace :=
  if orig_data = [] then ⟨[], [], none, .dropped .connClosed⟩
  else if st.tunnel_ready then processDataThroughPqc H st orig_data is_cu ppid
  else ⟨[], [], some (is_cu, orig_data.length), .dropped .notReady⟩

/-- Handling a whole sequence of inbound reads. The data path never mutates
the handler's state (`tunnel_ready` and the secrets are only written by the
handshake), so the same state governs every packet. -/
def processPackets (H : Bytes → Bytes) (st : TunnelState)
    (pkts : List (Bytes × Bool × Nat)) : List PacketTrace :=
  pkts.map fun p => processSocketData H st p.1 p.2.1 p.2.2

/-- Total number of payload bytes written to the opposite endpoint by a list
of packet traces. -/
def deliveredBytes (trs : List PacketTrace) : Nat :=
  trs.foldl
    (fun n tr =>
      match tr.result with
      | .forwarded b _ => n + b.length
      | .dropped _ => n)
    0

/-- Hex digits of a byte string, as digit values: each byte contributes its
high then its low nibble. `hashlib.sha256(x).hexdigest()` is exactly this
expansion of the digest into 64 hex characters. -/
def hexDigits (bs : Bytes) : List Nat :=
  (bs.map fun b => [b / 16, b % 16]).flatten

/-- `hashlib.sha256(secret).hexdigest()[:8]` (lines 209-210): the first 8 hex
characters of the digest of a shared secret. -/
def digest8 (H : Bytes → Bytes) (s : Bytes) : List Nat :=
  (hexDigits (H s)).take 8

/-- Outcomes of the external Kyber512 KEM operations used by
`SCTPEventHandler.initialize_pqc`: the public key returned by
`qdu_pqc.setup_keypair()`, the `(ciphertext, shared_secret)` pair returned by
`qcu_pqc.establish_shared_secret(pk)` via `kem.encap_secret`, and the secret
recovered by `qdu_pqc.establish_shared_secret(server_ciphertext=ct)` via
`decap_secret`. `none` models a `None` return or a caught exception. -/
structure HandshakeInputs where
  qdu_keypair : Option Bytes
  encap : Option (Bytes × Bytes)
  decap : Option Bytes
  deriving DecidableEq, Repr

/-- `SCTPEventHandler.initialize_pqc` (lines 189-222), the word
`initialize` spelled `init` here. Every raised exception is
caught by the surrounding `try/except` (line 221), which only logs: the state
reached so far is kept, and `tunnel_ready` is set — to `True` — exactly in
the branch where the two 8-hex-character digest prefixes compare equal
(line 212). Note `establish_shared_secret` mutates the manager's
`shared_secret` before the digest comparison, so a digest mismatch keeps the
secrets but leaves the flag untouched. -/
def init_pqc (H : Bytes → Bytes) (hs : HandshakeInputs)
    (st : TunnelState) : TunnelState :=
  match hs.qdu_keypair with
  | none => st
  | some pk =>
    if pk = [] then st
    else
      match hs.encap with
      | none => st
      | some (ct, qcu_sec) =>
        let st1 := { st with qcu_secret := some qcu_sec }
        if ct = [] then st1
        else
          match hs.decap with
          | none => st1
          | some qdu_sec =>
            let st2 := { st1 with qdu_secret := some qdu_sec }
            if digest8 H qcu_sec = digest8 H qdu_sec then
              { st2 with tunnel_ready := true }
            else st2

/-- Events dispatched to `SCTPEventHandler`: the one-shot `evtype_init`
event (scheduled once with `_schedule_now` on line 187) and the data-plane
handling of one inbound socket read during a poll. -/
inductive Ev where
  | init (hs : HandshakeInputs)
  | packet (orig_data : Bytes) (is_cu : Bool) (ppid : Nat)
  deriving DecidableEq

/-- One event dispatch. `evtype_init` is scheduled exactly once and never
rescheduled (polling only reschedules `evtype_poll`), which `initPending`
records: a fired init event consumes it, and an init with no pending event
cannot occur again. Data-plane packets never write the handler state. -/
def step (H : Bytes → Bytes) (st : TunnelState) : Ev → TunnelState
  | .init hs =>
    if st.initPending then init_pqc H hs { st with initPending := false }
    else st
  | .packet _ _ _ => st

/-- Dispatching a sequence of events in order. -/
def runEvents (H : Bytes → Bytes) (evs : List Ev) (st : TunnelState) :
    TunnelState :=
  evs.foldl (step H) st

/-- The state constructed in `SCTPEventHandler.__init__` (lines 172-187):
`tunnel_ready = False`, one init event pending, no shared secrets yet. -/
def initialTunnelState : TunnelState :=
  { tunnel_ready := false, initPending := true,
    qcu_secret := none, qdu_secret := none }

/-- Simulation-time annotation for one secured packet handled by
`_process_data_through_pqc`, time measured in milliseconds. pydynaa runs the
whole poll handler at the poll event's simulation time `T`; `tx_output` on
line 327/359 injects the wire unit into a `ClassicalChannel` whose
`FixedDelayModel(delay=150e-3)` (seconds, line 119) delivers it to the
opposite node's `in_port` at `T + 150` ms; the `_send_with_ppid` socket write
on line 344/376 executes inside the same handler, i.e. at time `T`. -/
structure TimedTrace where
  socketWriteTime : Option Nat
  channelFireTime : Option Nat
  deriving DecidableEq, Repr

/-- Temporal view of `_process_data_through_pqc`: when (in simulation time,
milliseconds) the destination-socket write and the scheduled NetSquid channel
delivery happen for a packet entering at time `T` over a channel with fixed
delay `delay`. -/
def processTimed (H : Bytes → Bytes) (st : TunnelState) (orig_data : Bytes)
    (is_cu : Bool) (ppid : Nat) (T delay : Nat) : TimedTrace :=
  let tr := processDataThroughPqc H st orig_data is_cu ppid
  { socketWriteTime :=
      match tr.result with
      | .forwarded _ _ => some T
      | .dropped _ => none,
    channelFireTime :=
      match tr.scheduled with
      | [] => none
      | _ :: _ => some (T + delay) }

/-- The fixed channel delay of `ClassicalConnection.__init__`:
`FixedDelayModel(delay=150e-3)` seconds = 150 milliseconds. -/
def CONFIGURED_DELAY_MS : Nat := 150

/-- `QuantumTunnelNode.process_classical_data` of
`src/SequenceTunnel/sequence_tunnel.py` (lines 76-107): the delivery event is
scheduled on the SeQUeNCe timeline at `self.timeline.now() + self.quantum_delay`
picoseconds, and `deliver_to_cu`/`deliver_to_du` additionally sleeps the
corresponding real time before the socket send. -/
def sequenceDeliveryTime (nowPs : Nat) (quantumDelayPs : Nat) : Nat :=
  nowPs + quantumDelayPs

/-- `QUANTUM_DELAY_PS = int(125 * 1e9)` of sequence_tunnel.py (line 36). -/
def QUANTUM_DELAY_PS : Nat := 125 * 10 ^ 9

/-- A stand-in 32-byte digest function used only to instantiate theorems at
concrete inputs: it satisfies the length hypothesis placed on SHA-256. -/
def zeroHash : Bytes → Bytes := fun _ => List.replicate 32 0

/-- A second concrete 32-byte digest function whose output depends on its
input, used to exhibit runs where the two managers' keystreams differ. -/
def markHash : Bytes → Bytes := fun x =>
  if x = 1 :: counter_bytes then 7 :: List.replicate 31 0
  else List.replicate 32 0

lemma xor_xor_cancel (a b : Nat) : (a ^^^ b) ^^^ b = a := by
  rw [Nat.xor_assoc, Nat.xor_self, Nat.xor_zero]

lemma xor_xor_extract (a b : Nat) : (a ^^^ b) ^^^ a = b := by
  rw [Nat.xor_comm a b, Nat.xor_assoc, Nat.xor_self, Nat.xor_zero]

lemma zipWith_xor_cancel :
    ∀ (d ks : Bytes), d.length ≤ ks.length →
      List.zipWith Nat.xor (List.zipWith Nat.xor d ks) ks = d := by
  intro d
  induction d with
  | nil => intro ks _; simp
  | cons a d ih =>
    intro ks h
    cases ks with
    | nil => simp at h
    | cons k ks =>
      simp only [List.zipWith_cons_cons, List.cons.injEq]
      exact ⟨xor_xor_cancel a k, ih ks (by simpa using h)⟩

lemma zipWith_xor_extract :
    ∀ (d ks : Bytes), ks.length ≤ d.length →
      List.zipWith Nat.xor (List.zipWith Nat.xor d ks) d = ks := by
  intro d
  induction d with
  | nil => intro ks h; simp at h ⊢; simpa using h
  | cons a d ih =>
    intro ks h
    cases ks with
    | nil => simp
    | cons k ks =>
      simp only [List.zipWith_cons_cons, List.cons.injEq]
      exact ⟨xor_xor_extract a k, ih ks (by simpa using h)⟩

lemma growKeystream_length (H : Bytes → Bytes)
    (hH : ∀ x, (H x).length = 32) :
    ∀ (fuel target : Nat) (ks : Bytes), target ≤ ks.length + fuel →
      target ≤ (growKeystream H fuel target ks).length := by
  intro fuel
  induction fuel with
  | zero => intro target ks h; simpa [growKeystream] using h
  | succ n ih =>
    intro target ks h
    rw [growKeystream]
    split
    · apply ih
      simp only [List.length_append, hH]
      omega
    · omega

lemma keystream_length (H : Bytes → Bytes) (hH : ∀ x, (H x).length = 32)
    (s : Bytes) (n : Nat) : (keystream H s n).length = n := by
  have h := growKeystream_length H hH n n (H (s ++ counter_bytes))
    (by rw [hH]; omega)
  simp only [keystream, List.length_take]
  omega

lemma protect_data_some (H : Bytes → Bytes) (s : Bytes) (d : Bytes)
    (hs : s ≠ []) :
    protect_data H (some s) d
      = some (List.zipWith Nat.xor d (keystream H s d.length)) := by
  simp [protect_data, hs]

lemma protect_data_length (H : Bytes → Bytes) (hH : ∀ x, (H x).length = 32)
    (s d r : Bytes) (h : protect_data H (some s) d = some r) :
    r.length = d.length := by
  by_cases hs : s = []
  · simp [protect_data, hs] at h
  · rw [protect_data_some H s d hs] at h
    cases h
    simp [keystream_length H hH]

lemma protect_data_involutive (H : Bytes → Bytes)
    (hH : ∀ x, (H x).length = 32) (s d c : Bytes) (hs : s ≠ [])
    (hc : protect_data H (some s) d = some c) :
    protect_data H (some s) c = some d := by
  rw [protect_data_some H s d hs] at hc
  cases hc
  have hlen : (List.zipWith Nat.xor d (keystream H s d.length)).length
      = d.length := by
    simp [keystream_length H hH]
  rw [protect_data_some H s _ hs, hlen]
  congr 1
  exact zipWith_xor_cancel d _ (by rw [keystream_length H hH])

lemma processSocketData_not_ready (H : Bytes → Bytes) (st : TunnelState)
    (d : Bytes) (b : Bool) (pp : Nat) (hready : st.tunnel_ready = false) :
    processSocketData H st d b pp
      = if d = [] then ⟨[], [], none, .dropped .connClosed⟩
        else ⟨[], [], some (b, d.length), .dropped .notReady⟩ := by
  simp [processSocketData, hready]

lemma deliveredBytes_aux (trs : List PacketTrace)
    (h : ∀ tr ∈ trs, ∃ r, tr.result = .dropped r) :
    ∀ n, trs.foldl
      (fun n tr =>
        match tr.result with
        | .forwarded b _ => n + b.length
        | .dropped _ => n) n = n := by
  induction trs with
  | nil => intro n; rfl
  | cons tr trs ih =>
    intro n
    obtain ⟨r, hr⟩ := h tr (List.mem_cons_self tr trs)
    simp only [List.foldl_cons, hr]
    exact ih (fun t ht => h t (List.mem_cons_of_mem tr ht)) n

lemma deliveredBytes_zero (trs : List PacketTrace)
    (h : ∀ tr ∈ trs, ∃ r, tr.result = .dropped r) :
    deliveredBytes trs = 0 :=
  deliveredBytes_aux trs h 0

lemma init_pqc_ready_true_iff (H : Bytes → Bytes) (hs : HandshakeInputs)
    (st : TunnelState) :
    (init_pqc H hs st).tunnel_ready = true ↔
      st.tunnel_ready = true ∨
      ∃ pk ct s1 s2, hs.qdu_keypair = some pk ∧ pk ≠ [] ∧
        hs.encap = some (ct, s1) ∧ ct ≠ [] ∧ hs.decap = some s2 ∧
        digest8 H s1 = digest8 H s2 := by
  obtain ⟨kp, ec, dc⟩ := hs
  cases kp with
  | none => simp [init_pqc]
  | some pk =>
    by_cases hpk : pk = []
    · simp [init_pqc, hpk]
    · cases ec with
      | none => simp [init_pqc, hpk]
      | some ctsec =>
        obtain ⟨ct, s1⟩ := ctsec
        by_cases hct : ct = []
        · simp [init_pqc, hpk, hct]
        · cases dc with
          | none => simp [init_pqc, hpk, hct]
          | some s2 =>
            by_cases hd : digest8 H s1 = digest8 H s2
            · refine ⟨fun _ =>
                Or.inr ⟨pk, ct, s1, s2, rfl, hpk, rfl, hct, rfl, hd⟩,
                fun _ => ?_⟩
              simp [init_pqc, hpk, hct, hd]
            · simp [init_pqc, hpk, hct, hd]

lemma step_of_initPending_false (H : Bytes → Bytes) (st : TunnelState)
    (ev : Ev) (h : st.initPending = false) : step H st ev = st := by
  cases ev with
  | init hs => simp [step, h]
  | packet _ _ _ => rfl

/-- C2: for every non-empty shared secret `s` and every byte sequence `d`,
applying the cipher twice with the same secret returns the original
plaintext — `protect_data` is an involution, serving both encrypt and
decrypt. -/
theorem protect_data_involution (H : Bytes → Bytes)
    (hH : ∀ x, (H x).length = 32) (s d : Bytes) (hs : s ≠ []) :
    ∃ c, protect_data H (some s) d = some c ∧
      protect_data H (some s) c = some d :=
  ⟨_, protect_data_some H s d hs,
    protect_data_involutive H hH s d _ hs (protect_data_some H s d hs)⟩

theorem protect_data_involution_witness :
    ∃ c, protect_data zeroHash (some [5]) [1, 2, 3] = some c ∧
      protect_data zeroHash (some [5]) c = some [1, 2, 3] :=
  protect_data_involution zeroHash (fun x => by simp [zeroHash]) [5] [1, 2, 3]
    (by decide)

/-- C4: whenever `protect_data` is called while the shared secret is unset
(`None`) or empty (`b""`), it returns no result rather than throwing, so no
ciphertext is produced before the handshake has installed a secret. -/
theorem protect_data_none_when_secret_missing (H : Bytes → Bytes)
    (d : Bytes) :
    protect_data H none d = none ∧ protect_data H (some []) d = none := by
  exact ⟨rfl, by simp [protect_data]⟩

/-- C6: for every non-empty secret and any two equal-length payloads the
keystream applied is identical — `protect(s, d1) XOR d1 = protect(s, d2) XOR
d2` — because every call restarts keystream generation from the same fixed
zero counter seed. -/
theorem equal_length_packets_share_keystream (H : Bytes → Bytes)
    (hH : ∀ x, (H x).length = 32) (s d1 d2 : Bytes) (hs : s ≠ [])
    (hlen : d1.length = d2.length) :
    ∃ c1 c2, protect_data H (some s) d1 = some c1 ∧
      protect_data H (some s) d2 = some c2 ∧
      List.zipWith Nat.xor c1 d1 = List.zipWith Nat.xor c2 d2 := by
  refine ⟨_, _, protect_data_some H s d1 hs, protect_data_some H s d2 hs, ?_⟩
  have h1 := zipWith_xor_extract d1 (keystream H s d1.length)
    (le_of_eq (keystream_length H hH s d1.length))
  have h2 := zipWith_xor_extract d2 (keystream H s d2.length)
    (le_of_eq (keystream_length H hH s d2.length))
  rw [h1, h2, hlen]

theorem equal_length_packets_share_keystream_witness :
    ∃ c1 c2, protect_data zeroHash (some [5]) [1, 2, 3] = some c1 ∧
      protect_data zeroHash (some [5]) [4, 5, 6] = some c2 ∧
      List.zipWith Nat.xor c1 [1, 2, 3] = List.zipWith Nat.xor c2 [4, 5, 6] :=
  equal_length_packets_share_keystream zeroHash (fun x => by simp [zeroHash])
    [5] [1, 2, 3] [4, 5, 6] (by decide) (by decide)

lemma protect_data_empty_input (H : Bytes → Bytes) (sec : Option Bytes) :
    protect_data H sec [] = none ∨ protect_data H sec [] = some [] := by
  cases sec with
  | none => exact Or.inl rfl
  | some s =>
    by_cases hs : s = []
    · exact Or.inl (by simp [protect_data, hs])
    · exact Or.inr (by simp [protect_data, hs])

/-- C10: when `protect_data` returns a result it has exactly the input's
length; the empty input maps (for a usable secret) to the empty byte string,
and the pipeline's Python-falsy test on the ciphertext then treats it as a
cipher failure, so a zero-length packet is never forwarded. -/
theorem protect_data_length_preserving_empty_drop (H : Bytes → Bytes)
    (hH : ∀ x, (H x).length = 32) :
    (∀ s d r, protect_data H (some s) d = some r → r.length = d.length) ∧
    (∀ s, s ≠ [] → protect_data H (some s) [] = some []) ∧
    (∀ st is_cu ppid b pp,
      (processDataThroughPqc H st [] is_cu ppid).result
        ≠ .forwarded b pp) := by
  refine ⟨fun s d r h => protect_data_length H hH s d r h,
    fun s hs => by simp [protect_data, hs], ?_⟩
  intro st is_cu ppid b pp
  unfold processDataThroughPqc
  split
  · simp
  · rcases protect_data_empty_input H
      (if is_cu then st.qcu_secret else st.qdu_secret) with hp | hp <;>
      simp [hp]

theorem protect_data_length_preserving_empty_drop_witness :
    (protect_data zeroHash (some [5]) [] = some []) ∧
    (processDataThroughPqc zeroHash
        { tunnel_ready := true, initPending := false,
          qcu_secret := some [5], qdu_secret := some [5] }
        [] true 62).result ≠ .forwarded [] 62 := by
  refine ⟨(protect_data_length_preserving_empty_drop zeroHash
      (fun x => by simp [zeroHash])).2.1 [5] (by decide),
    (protect_data_length_preserving_empty_drop zeroHash
      (fun x => by simp [zeroHash])).2.2 _ true 62 [] 62⟩

/-- C1: while `tunnel_ready` is false every inbound data-plane packet read
from either endpoint is dropped after being logged with its source and size:
it never reaches `protect_data`, is never injected into the NetSquid channel,
and zero bytes of it are ever forwarded to the opposite endpoint — for any
number of injected packets. -/
theorem gate_blocks_all_packets_when_not_ready (H : Bytes → Bytes)
    (st : TunnelState) (pkts : List (Bytes × Bool × Nat))
    (hready : st.tunnel_ready = false) :
    (∀ p ∈ pkts,
      (processSocketData H st p.1 p.2.1 p.2.2).cipherInputs = [] ∧
      (processSocketData H st p.1 p.2.1 p.2.2).scheduled = [] ∧
      (∀ b pp,
        (processSocketData H st p.1 p.2.1 p.2.2).result ≠ .forwarded b pp) ∧
      (p.1 ≠ [] → (processSocketData H st p.1 p.2.1 p.2.2).blockedLog
        = some (p.2.1, p.1.length))) ∧
    deliveredBytes (processPackets H st pkts) = 0 := by
  constructor
  · intro p _
    rw [processSocketData_not_ready H st p.1 p.2.1 p.2.2 hready]
    by_cases hp : p.1 = [] <;> simp [hp]
  · apply deliveredBytes_zero
    intro tr htr
    simp only [processPackets, List.mem_map] at htr
    obtain ⟨p, _, hp⟩ := htr
    rw [processSocketData_not_ready H st p.1 p.2.1 p.2.2 hready] at hp
    by_cases he : p.1 = []
    · exact ⟨.connClosed, by simp [← hp, he]⟩
    · exact ⟨.notReady, by simp [← hp, he]⟩

theorem gate_blocks_all_packets_when_not_ready_witness :
    deliveredBytes (processPackets zeroHash initialTunnelState
      [([1, 2, 3], true, 62), ([7], false, 62)]) = 0 :=
  (gate_blocks_all_packets_when_not_ready zeroHash initialTunnelState
    [([1, 2, 3], true, 62), ([7], false, 62)] rfl).2

/-- C7: when the decrypted bytes differ from the pre-encryption plaintext
captured at enqueue time, that packet ends in the integrity-failure drop:
nothing is written to the destination endpoint, and the handler state — in
particular the readiness flag — is untouched, so later packets still flow. -/
theorem integrity_mismatch_drops_packet_keeps_ready (H : Bytes → Bytes)
    (st : TunnelState) (orig_data : Bytes) (is_cu : Bool) (ppid : Nat)
    (enc dec : Bytes) (hready : st.tunnel_ready = true)
    (henc : protect_data H (if is_cu then st.qcu_secret else st.qdu_secret)
      orig_data = some enc)
    (hne : enc ≠ [])
    (hdec : protect_data H (if is_cu then st.qdu_secret else st.qcu_secret)
      enc = some dec)
    (hdne : dec ≠ []) (hmm : dec ≠ orig_data) :
    (processDataThroughPqc H st orig_data is_cu ppid).result
        = .dropped .integrity ∧
    (∀ b pp, (processDataThroughPqc H st orig_data is_cu ppid).result
        ≠ .forwarded b pp) ∧
    step H st (.packet orig_data is_cu ppid) = st := by
  have hres : processDataThroughPqc H st orig_data is_cu ppid
      = ⟨[orig_data, enc], [dataWithPpid ppid enc], none,
          .dropped .integrity⟩ := by
    unfold processDataThroughPqc
    simp [hready, henc, hne, hdec, hdne, hmm]
  exact ⟨by rw [hres], by rw [hres]; intro b pp; simp, rfl⟩

theorem integrity_mismatch_drops_packet_keeps_ready_witness :
    (processDataThroughPqc markHash
      { tunnel_ready := true, initPending := false,
        qcu_secret := some [1], qdu_secret := some [2] }
      [1] true 62).result = .dropped .integrity :=
  (integrity_mismatch_drops_packet_keeps_ready markHash
    { tunnel_ready := true, initPending := false,
      qcu_secret := some [1], qdu_secret := some [2] }
    [1] true 62 [6] [6] rfl (by decide) (by decide) (by decide) (by decide)
    (by decide)).1

/-- C9: if the two PQC managers hold byte-for-byte equal shared secrets, the
integrity-mismatch branch of the pipeline is unreachable — for a usable
secret the receiving manager's decryption reproduces the original packet
exactly, so the integrity-failure error path never executes. -/
theorem integrity_branch_unreachable_equal_secrets (H : Bytes → Bytes)
    (hH : ∀ x, (H x).length = 32) (st : TunnelState) (orig_data : Bytes)
    (is_cu : Bool) (ppid : Nat) (hsec : st.qcu_secret = st.qdu_secret) :
    ((processDataThroughPqc H st orig_data is_cu ppid).result
        ≠ .dropped .integrity) ∧
    (∀ s enc, st.qcu_secret = some s → s ≠ [] →
      protect_data H (some s) orig_data = some enc →
      protect_data H (some s) enc = some orig_data) := by
  constructor
  · unfold processDataThroughPqc
    split
    · simp
    · have hone : (if is_cu then st.qcu_secret else st.qdu_secret)
          = st.qcu_secret := by cases is_cu <;> simp [hsec]
      have htwo : (if is_cu then st.qdu_secret else st.qcu_secret)
          = st.qcu_secret := by cases is_cu <;> simp [hsec]
      rw [hone, htwo]
      cases hq : st.qcu_secret with
      | none => simp [protect_data]
      | some s =>
        by_cases hs : s = []
        · simp [protect_data, hs]
        · have henc := protect_data_some H s orig_data hs
          by_cases he : List.zipWith Nat.xor orig_data
              (keystream H s orig_data.length) = []
          · simp [henc, he]
          · have hdec := protect_data_involutive H hH s orig_data _ hs henc
            by_cases ho : orig_data = []
            · exact absurd (by simp [ho]) he
            · simp [henc, he, hdec, ho]
  · intro s enc _ hs henc
    exact protect_data_involutive H hH s orig_data enc hs henc

theorem integrity_branch_unreachable_equal_secrets_witness :
    (processDataThroughPqc zeroHash
      { tunnel_ready := true, initPending := false,
        qcu_secret := some [5], qdu_secret := some [5] }
      [1, 2, 3] true 62).result ≠ .dropped .integrity :=
  (integrity_branch_unreachable_equal_secrets zeroHash
    (fun x => by simp [zeroHash])
    { tunnel_ready := true, initPending := false,
      qcu_secret := some [5], qdu_secret := some [5] }
    [1, 2, 3] true 62 rfl).1

lemma unpackU32_packU32 (n : Nat) (h : n < 2 ^ 32) :
    unpackU32 (packU32 n) = n := by
  simp only [packU32, unpackU32]
  omega

lemma extractPpid_aux (anc : List (Nat × Nat × Bytes))
    (h : ∀ c ∈ anc, ¬(c.1 = IPPROTO_SCTP ∧ c.2.1 = SCTP_PPID)) :
    ∀ acc, anc.foldl
      (fun ppid c =>
        if c.1 = IPPROTO_SCTP ∧ c.2.1 = SCTP_PPID then unpackU32 c.2.2
        else ppid) acc = acc := by
  induction anc with
  | nil => intro acc; rfl
  | cons c anc ih =>
    intro acc
    simp only [List.foldl_cons, if_neg (h c (List.mem_cons_self c anc))]
    exact ih (fun d hd => h d (List.mem_cons_of_mem c hd)) acc

/-- C3: the readiness flag starts false, flips false→true at most once (no
step ever resets it), a flip can only happen at the init event and only when
the two sides' 8-hex-character secret digests compare exactly equal, and once
the one-shot init event has been consumed with the flag still false, the flag
stays false for the rest of the session — no retry. -/
theorem ready_flag_lifecycle (H : Bytes → Bytes) :
    initialTunnelState.tunnel_ready = false ∧
    (∀ st ev, st.tunnel_ready = true → (step H st ev).tunnel_ready = true) ∧
    (∀ st hs, (step H st (.init hs)).tunnel_ready = true →
      st.tunnel_ready = true ∨
      ∃ pk ct s1 s2, hs.qdu_keypair = some pk ∧ pk ≠ [] ∧
        hs.encap = some (ct, s1) ∧ ct ≠ [] ∧ hs.decap = some s2 ∧
        digest8 H s1 = digest8 H s2) ∧
    (∀ st orig b ppid, step H st (.packet orig b ppid) = st) ∧
    (∀ st evs, st.tunnel_ready = false → st.initPending = false →
      (runEvents H evs st).tunnel_ready = false) := by
  refine ⟨rfl, ?_, ?_, fun _ _ _ _ => rfl, ?_⟩
  · intro st ev h
    cases ev with
    | packet o b p => exact h
    | init hs =>
      simp only [step]
      split
      · exact (init_pqc_ready_true_iff H hs _).mpr (Or.inl h)
      · exact h
  · intro st hs h
    simp only [step] at h
    by_cases hp : st.initPending
    · rw [if_pos hp] at h
      rcases (init_pqc_ready_true_iff H hs _).mp h with h1 | h2
      · exact Or.inl h1
      · exact Or.inr h2
    · rw [if_neg hp] at h
      exact Or.inl h
  · intro st evs h hp
    induction evs generalizing st with
    | nil => exact h
    | cons ev evs ih =>
      have hst : step H st ev = st := step_of_initPending_false H st ev hp
      simp only [runEvents, List.foldl_cons, hst]
      exact ih st h hp

theorem ready_flag_lifecycle_witness :
    (step zeroHash
      { tunnel_ready := true, initPending := false,
        qcu_secret := some [5], qdu_secret := some [5] }
      (.packet [1] true 62)).tunnel_ready = true ∧
    (runEvents zeroHash [.packet [1] true 62]
      { tunnel_ready := false, initPending := false,
        qcu_secret := none, qdu_secret := none }).tunnel_ready = false :=
  ⟨(ready_flag_lifecycle zeroHash).2.1 _ _ rfl,
    (ready_flag_lifecycle zeroHash).2.2.2.2 _ [.packet [1] true 62] rfl rfl⟩

/-- C5 (violated by the code): for a packet entering at simulation time 0
with the session ready and the 150 ms fixed channel delay configured, the
handler writes the plaintext to the destination socket at time 0 — during
the same poll event — while the NetSquid channel delivery it schedules fires
only at 150 ms; the socket write thus happens strictly before the scheduled
fire time, contradicting the delay lower bound. -/
theorem delay_bound_violated_at_concrete_packet :
    (processTimed zeroHash
      { tunnel_ready := true, initPending := false,
        qcu_secret := some [5], qdu_secret := some [5] }
      [1, 2, 3] true 62 0 CONFIGURED_DELAY_MS).socketWriteTime = some 0 ∧
    (processTimed zeroHash
      { tunnel_ready := true, initPending := false,
        qcu_secret := some [5], qdu_secret := some [5] }
      [1, 2, 3] true 62 0 CONFIGURED_DELAY_MS).channelFireTime
      = some CONFIGURED_DELAY_MS ∧
    0 < CONFIGURED_DELAY_MS ∧
    sequenceDeliveryTime 0 QUANTUM_DELAY_PS = QUANTUM_DELAY_PS := by
  refine ⟨by decide, by decide, by decide, rfl⟩

/-- C8 counterexample: the claim's wire layout — a 4-byte big-endian tag
followed by the ciphertext — differs from what the code builds: for the
default tag 62 and ciphertext `[1]`, `struct.pack('=I', 62) + [1]` is
`[62, 0, 0, 0, 1]`, not the big-endian `[0, 0, 0, 62, 1]`. -/
theorem wire_tag_not_big_endian :
    dataWithPpid F1AP_PPID [1] ≠ packU32be F1AP_PPID ++ [1] := by decide

/-- C8 (amended): the wire unit is a 4-byte unsigned payload tag in native
byte order (little-endian on the target hosts) followed by the ciphertext;
the unpacked tag value round-trips, and the tag defaults to the F1AP PPID
(62) whenever the socket read supplies no SCTP PPID ancillary data. -/
theorem wire_format_native_order_with_default_tag (ppid : Nat) (enc : Bytes)
    (hp : ppid < 2 ^ 32) :
    (dataWithPpid ppid enc).take 4 = packU32 ppid ∧
    (dataWithPpid ppid enc).drop 4 = enc ∧
    unpackU32 ((dataWithPpid ppid enc).take 4) = ppid ∧
    (∀ ancdata,
      (∀ c ∈ ancdata, ¬(c.1 = IPPROTO_SCTP ∧ c.2.1 = SCTP_PPID)) →
      extractPpid ancdata = F1AP_PPID) := by
  have ht : (dataWithPpid ppid enc).take 4 = packU32 ppid := by
    simp [dataWithPpid, packU32]
  refine ⟨ht, by simp [dataWithPpid, packU32], ?_, ?_⟩
  · rw [ht]
    exact unpackU32_packU32 ppid hp
  · intro anc h
    exact extractPpid_aux anc h F1AP_PPID

theorem wire_format_native_order_with_default_tag_witness :
    (dataWithPpid 62 [9]).take 4 = packU32 62 ∧
    unpackU32 ((dataWithPpid 62 [9]).take 4) = 62 ∧
    extractPpid [] = F1AP_PPID :=
  ⟨(wire_format_native_order_with_default_tag 62 [9] (by decide)).1,
    (wire_format_native_order_with_default_tag 62 [9] (by decide)).2.2.1,
    (wire_format_native_order_with_default_tag 62 [9] (by decide)).2.2.2 []
      (by decide)⟩
